import Mathlib

/-!
Shallow embedding of the consensus and ledger core of bc4py_core
(a hybrid PoW / PoS / PoC cryptocurrency node, Rust), together with
proofs about the embedded operations.

Conventions used throughout:
* machine integers are `Nat` with explicit `% 2 ^ w` at the points where the
  Rust code can wrap (release-profile semantics; debug builds would panic on
  the same overflows, which is recorded in comments where it matters);
* `U256` values are `Nat` below `2 ^ 256`;
* fallible Rust functions return `Except String`; functions whose Rust
  original can panic return an explicit `panicked` outcome; loops whose Rust
  original need not terminate are written on fuel, with `spin` as the
  out-of-fuel outcome, and theorems quantify over the fuel.
-/

namespace Bc4py

/-- Outcome of running an embedded Rust computation: a normal value, a
process-aborting panic, or exhaustion of the fuel given to a loop that the
source writes without a termination guarantee. -/
inductive RunRes (α : Type) where
  | ok (val : α)
  | panicked
  | spin
deriving DecidableEq

/- ---------------------------------------------------------------------
SHA-256 (FIPS 180-4) over byte lists.

The repository calls the external `sha2` crate through
`sha256double` in src/utils.rs; the crate is an external collaborator, so the
standard SHA-256 function is defined here directly from FIPS 180-4 in an
executable, kernel-reducible form.  Words are `Nat` kept below `2 ^ 32` by
explicit reduction.
--------------------------------------------------------------------- -/

/-- Right rotation of a 32-bit word. -/
def rotr32 (n x : Nat) : Nat :=
  (x >>> n) ||| ((x <<< (32 - n)) % 2 ^ 32)

/-- SHA-256 `Ch(x,y,z)`; the complement is taken inside 32 bits. -/
def shaCh (x y z : Nat) : Nat := (x &&& y) ^^^ ((x ^^^ 0xffffffff) &&& z)

/-- SHA-256 `Maj(x,y,z)`. -/
def shaMaj (x y z : Nat) : Nat := (x &&& y) ^^^ (x &&& z) ^^^ (y &&& z)

/-- SHA-256 big sigma 0. -/
def bsig0 (x : Nat) : Nat := rotr32 2 x ^^^ rotr32 13 x ^^^ rotr32 22 x

/-- SHA-256 big sigma 1. -/
def bsig1 (x : Nat) : Nat := rotr32 6 x ^^^ rotr32 11 x ^^^ rotr32 25 x

/-- SHA-256 small sigma 0. -/
def ssig0 (x : Nat) : Nat := rotr32 7 x ^^^ rotr32 18 x ^^^ (x >>> 3)

/-- SHA-256 small sigma 1. -/
def ssig1 (x : Nat) : Nat := rotr32 17 x ^^^ rotr32 19 x ^^^ (x >>> 10)

/-- The 64 SHA-256 round constants, packed big-endian into one literal and
unpacked word by word. -/
def shaKPacked : Nat :=
  0x428a2f9871374491b5c0fbcfe9b5dba53956c25b59f111f1923f82a4ab1c5ed5d807aa9812835b01243185be550c7dc372be5d7480deb1fe9bdc06a7c19bf174e49b69c1efbe47860fc19dc6240ca1cc2de92c6f4a7484aa5cb0a9dc76f988da983e5152a831c66db00327c8bf597fc7c6e00bf3d5a7914706ca63511429296727b70a852e1b21384d2c6dfc53380d13650a7354766a0abb81c2c92e92722c85a2bfe8a1a81a664bc24b8b70c76c51a3d192e819d6990624f40e3585106aa07019a4c1161e376c082748774c34b0bcb5391c0cb34ed8aa4a5b9cca4f682e6ff3748f82ee78a5636f84c878148cc7020890befffaa4506cebbef9a3f7c67178f2

/-- The SHA-256 round constant list. -/
def shaK : List Nat :=
  (List.range 64).map (fun i => (shaKPacked >>> (32 * (63 - i))) % 2 ^ 32)

/-- The eight SHA-256 initial hash values, packed big-endian. -/
def shaInitPacked : Nat :=
  0x6a09e667bb67ae853c6ef372a54ff53a510e527f9b05688c1f83d9ab5be0cd19

/-- The SHA-256 initial state list. -/
def shaInit : List Nat :=
  (List.range 8).map (fun i => (shaInitPacked >>> (32 * (7 - i))) % 2 ^ 32)

/-- Big-endian 4-byte groups to 32-bit words. -/
def bytesToWords : List Nat → List Nat
  | a :: b :: c :: d :: rest => (a * 2 ^ 24 + b * 2 ^ 16 + c * 2 ^ 8 + d) :: bytesToWords rest
  | _ => []

/-- Extend the 16 block words by `n` further message-schedule words. -/
def extendW : Nat → List Nat → List Nat
  | 0, w => w
  | n + 1, w =>
    let t := (ssig1 (w.getD (w.length - 2) 0) + w.getD (w.length - 7) 0 +
              ssig0 (w.getD (w.length - 15) 0) + w.getD (w.length - 16) 0) % 2 ^ 32
    extendW n (w ++ [t])

/-- The 64 SHA-256 rounds, walking the round constants and schedule words. -/
def shaRound : List Nat → List Nat → List Nat → List Nat
  | kc :: ks, w :: ws, [a, b, c, d, e, f, g, h] =>
    let t1 := (h + bsig1 e + shaCh e f g + kc + w) % 2 ^ 32
    let t2 := (bsig0 a + shaMaj a b c) % 2 ^ 32
    shaRound ks ws [(t1 + t2) % 2 ^ 32, a, b, c, (d + t1) % 2 ^ 32, e, f, g]
  | _, _, st => st

/-- One SHA-256 compression over a 64-byte block. -/
def shaCompress (st : List Nat) (block : List Nat) : List Nat :=
  let w := extendW 48 (bytesToWords block)
  let st2 := shaRound shaK w st
  (st.zip st2).map (fun p => (p.1 + p.2) % 2 ^ 32)

/-- SHA-256 padding: `0x80`, zeros, then the 64-bit big-endian bit length. -/
def shaPad (msg : List Nat) : List Nat :=
  let L := msg.length
  let zeros := (64 + 55 - L % 64) % 64
  let bits := 8 * L
  msg ++ [0x80] ++ List.replicate zeros 0 ++
    [(bits >>> 56) % 256, (bits >>> 48) % 256, (bits >>> 40) % 256, (bits >>> 32) % 256,
     (bits >>> 24) % 256, (bits >>> 16) % 256, (bits >>> 8) % 256, bits % 256]

/-- Fold the compression over `n` consecutive 64-byte blocks. -/
def shaBlocksGo : Nat → List Nat → List Nat → List Nat
  | 0, st, _ => st
  | n + 1, st, rest => shaBlocksGo n (shaCompress st (rest.take 64)) (rest.drop 64)

/-- 32-bit words to big-endian bytes. -/
def wordsToBytes : List Nat → List Nat
  | [] => []
  | w :: ws => (w >>> 24) % 256 :: (w >>> 16) % 256 :: (w >>> 8) % 256 :: w % 256 :: wordsToBytes ws

/-- SHA-256 of a byte list (32-byte digest). -/
def sha256 (msg : List Nat) : List Nat :=
  let p := shaPad msg
  wordsToBytes (shaBlocksGo (p.length / 64) shaInit p)

/-- The double SHA-256 of src/utils.rs (`sha256double`). -/
def sha256double (b : List Nat) : List Nat := sha256 (sha256 b)

/- ---------------------------------------------------------------------
U256 byte conversion helpers (src/utils.rs `u256_to_bytes` writes the value
big-endian; `U256::from(slice)` reads a big-endian slice).
--------------------------------------------------------------------- -/

/-- Big-endian bytes to `Nat` (the `U256::from` reading used by the core). -/
def bytesBEToNat (bytes : List Nat) : Nat :=
  bytes.foldl (fun acc b => acc * 256 + b) 0

/-- `Nat` to a fixed-width big-endian byte list (`u256_to_bytes` with width 32). -/
def natToBytesBE (width n : Nat) : List Nat :=
  (List.range width).map (fun i => (n >>> (8 * (width - 1 - i))) % 256)

/- ---------------------------------------------------------------------
calc_merkleroot_hash (src/utils.rs lines 110-132).

The Rust loop mutates `hashs`: while more than one hash remains, an
even-length level is replaced by the double-SHA-256 of each adjacent pair
(big-endian serialization of both hashes concatenated), and an odd-length
level first duplicates its last element.  The loop is embedded on fuel
(`2 * length + 8` steps always suffice: every even step halves the length
and every odd step is immediately followed by an even step).
--------------------------------------------------------------------- -/

/-- Hash one adjacent pair: big-endian bytes of both, double-SHA-256, read
back big-endian (the loop body of `calc_merkleroot_hash`). -/
def merklePair (a b : Nat) : Nat :=
  bytesBEToNat (sha256double (natToBytesBE 32 a ++ natToBytesBE 32 b))

/-- One even-length level: every adjacent pair replaced by its pair hash
(the `for i in 0..(hashs.len() / 2)` loop). -/
def merkleLevel : List Nat → List Nat
  | a :: b :: rest => merklePair a b :: merkleLevel rest
  | _ => []

/-- The `while 1 < hashs.len()` loop of `calc_merkleroot_hash`, on fuel. -/
def merkleLoop : Nat → List Nat → List Nat
  | 0, hashs => hashs
  | f + 1, hashs =>
    if hashs.length ≤ 1 then hashs
    else if hashs.length % 2 = 0 then merkleLoop f (merkleLevel hashs)
    else merkleLoop f (hashs ++ [hashs.getLastD 0])

/-- `calc_merkleroot_hash` of src/utils.rs: run the level loop, then return
the remaining hash (`hashs.pop().unwrap()`; the Rust function asserts a
non-empty input, and all claims below keep that restriction). -/
def calc_merkleroot_hash (hashs : List Nat) : Nat :=
  (merkleLoop (2 * hashs.length + 8) hashs).getLastD 0

/-- A level maps `n` hashes to `n / 2` pair hashes. -/
theorem merkleLevel_length : ∀ l : List Nat, (merkleLevel l).length = l.length / 2
  | [] => by simp [merkleLevel]
  | [_] => by simp [merkleLevel]
  | _ :: _ :: rest => by
    simp only [merkleLevel, List.length_cons, merkleLevel_length rest]
    omega

/-- One unfolding step of the level loop. -/
theorem merkleLoop_succ (f : Nat) (l : List Nat) :
    merkleLoop (f + 1) l =
      if l.length ≤ 1 then l
      else if l.length % 2 = 0 then merkleLoop f (merkleLevel l)
      else merkleLoop f (l ++ [l.getLastD 0]) := rfl

/-- Fuel adequacy: `2 * length + 2` steps of the level loop already reach the
final value, so any larger fuel computes the same list. -/
theorem merkleLoop_stable : ∀ n l f, List.length l = n → 2 * n + 2 ≤ f →
    merkleLoop f l = merkleLoop (2 * n + 2) l := by
  intro n
  induction n using Nat.strong_induction_on with
  | _ n ih =>
    intro l f hlen hf
    obtain ⟨f', rfl⟩ : ∃ f', f = f' + 1 := ⟨f - 1, by omega⟩
    rw [show 2 * n + 2 = (2 * n + 1) + 1 from rfl, merkleLoop_succ, merkleLoop_succ, hlen]
    by_cases h1 : n ≤ 1
    · rw [if_pos h1, if_pos h1]
    · rw [if_neg h1, if_neg h1]
      by_cases he : n % 2 = 0
      · rw [if_pos he, if_pos he]
        have hlev : (merkleLevel l).length = n / 2 := by rw [merkleLevel_length, hlen]
        rw [ih (n / 2) (by omega) (merkleLevel l) f' hlev (by omega),
            ih (n / 2) (by omega) (merkleLevel l) (2 * n + 1) hlev (by omega)]
      · rw [if_neg he, if_neg he]
        have hlen2 : (l ++ [l.getLastD 0]).length = n + 1 := by
          simp [List.length_append, hlen]
        obtain ⟨f'', rfl⟩ : ∃ f'', f' = f'' + 1 := ⟨f' - 1, by omega⟩
        rw [show 2 * n + 1 = (2 * n) + 1 from rfl, merkleLoop_succ, merkleLoop_succ, hlen2,
          if_neg (by omega : ¬ n + 1 ≤ 1), if_neg (by omega : ¬ n + 1 ≤ 1),
          if_pos (by omega : (n + 1) % 2 = 0), if_pos (by omega : (n + 1) % 2 = 0)]
        have hlev2 : (merkleLevel (l ++ [l.getLastD 0])).length = (n + 1) / 2 := by
          rw [merkleLevel_length, hlen2]
        rw [ih ((n + 1) / 2) (by omega) (merkleLevel (l ++ [l.getLastD 0])) f'' hlev2 (by omega),
            ih ((n + 1) / 2) (by omega) (merkleLevel (l ++ [l.getLastD 0])) (2 * n) hlev2 (by omega)]

/-- For an even level of at least two hashes, the loop result is the loop
result of the paired level. -/
theorem calc_merkleroot_even (l : List Nat) (h2 : 2 ≤ l.length) (he : l.length % 2 = 0) :
    calc_merkleroot_hash l = calc_merkleroot_hash (merkleLevel l) := by
  unfold calc_merkleroot_hash
  rw [show 2 * l.length + 8 = (2 * l.length + 7) + 1 from rfl, merkleLoop_succ,
    if_neg (by omega), if_pos he,
    merkleLoop_stable ((merkleLevel l).length) (merkleLevel l) (2 * l.length + 7) rfl
      (by rw [merkleLevel_length]; omega),
    merkleLoop_stable ((merkleLevel l).length) (merkleLevel l)
      (2 * (merkleLevel l).length + 8) rfl (by omega)]

/-- For an odd level of at least three hashes, the loop result is the loop
result of the level with its last hash duplicated. -/
theorem calc_merkleroot_odd (l : List Nat) (h2 : 2 ≤ l.length) (ho : l.length % 2 = 1) :
    calc_merkleroot_hash l = calc_merkleroot_hash (l ++ [l.getLastD 0]) := by
  unfold calc_merkleroot_hash
  have hlen2 : (l ++ [l.getLastD 0]).length = l.length + 1 := by simp [List.length_append]
  rw [show 2 * l.length + 8 = (2 * l.length + 7) + 1 from rfl, merkleLoop_succ,
    if_neg (by omega), if_neg (by omega),
    merkleLoop_stable (l.length + 1) (l ++ [l.getLastD 0]) (2 * l.length + 7) hlen2 (by omega),
    merkleLoop_stable (l.length + 1) (l ++ [l.getLastD 0])
      (2 * (l ++ [l.getLastD 0]).length + 8) hlen2 (by omega)]

/-- A single hash is its own merkle root. -/
theorem calc_merkleroot_single (h : Nat) : calc_merkleroot_hash [h] = h := rfl

/- Scenario 2 of the spec: the four transaction hashes of the Bitcoin block
at height 100000, byte-reversed from their displayed hex form into the
canonical value the core hashes (test `test_merkleroot_hash`). -/

/-- Display hex 8c14f0db3df150123e6f3dbbf30f8b955a8249b62ac1d1ff16284aefa3d06d87, byte-reversed. -/
def mh1 : Nat := 0x876dd0a3ef4a2816ffd1c12ab649825a958b0ff3bb3d6f3e1250f13ddbf0148c

/-- Display hex fff2525b8931402dd09222c50775608f75787bd2b87e56995a7bdd30f79702c4, byte-reversed. -/
def mh2 : Nat := 0xc40297f730dd7b5a99567eb8d27b78758f607507c52292d02d4031895b52f2ff

/-- Display hex 6359f0868171b1d194cbee1af2f16ea598ae8fad666d9b012c8ed2b79a236ec4, byte-reversed. -/
def mh3 : Nat := 0xc46e239ab7d28e2c019b6d66ad8fae98a56ef1f21aeecb94d1b1718186f05963

/-- Display hex e9a66845e05d5abc0ad04ec80f774a7e585c6e8db975962d069a522137b80c1d, byte-reversed. -/
def mh4 : Nat := 0x1d0cb83721529a062d9675b98d6e5c587e4a770fc84ed00abc5a5de04568a6e9

/-- Display hex f3e94742aca4b5ef85488dc37c06c3282295ffec960994b2c0d5ac2a25a95766, byte-reversed. -/
def mroot : Nat := 0x6657a9252aacd5c0b2940996ecff952228c3067cc38d4885efb5a4ac4247e9f3

set_option maxRecDepth 1000000 in
set_option maxHeartbeats 4000000 in
/-- Claim C5: `calc_merkleroot_hash` on every non-empty list of hashes
repeatedly pairs adjacent hashes with double-SHA-256 (singletons return the
hash, even levels pair up, odd levels first duplicate the last hash); on the
four scenario transaction hashes it returns the stated root, and on the first
three of them the third hash is duplicated before pairing. -/
theorem merkleroot_duplication_and_scenario :
    (∀ h : Nat, calc_merkleroot_hash [h] = h) ∧
    (∀ l : List Nat, 2 ≤ l.length → l.length % 2 = 0 →
      calc_merkleroot_hash l = calc_merkleroot_hash (merkleLevel l)) ∧
    (∀ l : List Nat, 2 ≤ l.length → l.length % 2 = 1 →
      calc_merkleroot_hash l = calc_merkleroot_hash (l ++ [l.getLastD 0])) ∧
    calc_merkleroot_hash [mh1, mh2, mh3, mh4] = mroot ∧
    calc_merkleroot_hash [mh1, mh2, mh3] = calc_merkleroot_hash [mh1, mh2, mh3, mh3] ∧
    calc_merkleroot_hash [mh1, mh2, mh3, mh3] =
      merklePair (merklePair mh1 mh2) (merklePair mh3 mh3) := by
  refine ⟨calc_merkleroot_single, calc_merkleroot_even, calc_merkleroot_odd, ?_, ?_, ?_⟩
  · decide
  · decide
  · decide

/-- Witness for claim C5: the quantified conjuncts applied at concrete lists. -/
theorem merkleroot_duplication_and_scenario_witness :
    calc_merkleroot_hash [mh1, mh2] = calc_merkleroot_hash (merkleLevel [mh1, mh2]) ∧
    calc_merkleroot_hash [mh1, mh2, mh3] =
      calc_merkleroot_hash ([mh1, mh2, mh3] ++ [[mh1, mh2, mh3].getLastD 0]) :=
  ⟨merkleroot_duplication_and_scenario.2.1 [mh1, mh2] (by decide) (by decide),
   merkleroot_duplication_and_scenario.2.2.1 [mh1, mh2, mh3] (by decide) (by decide)⟩

/- ---------------------------------------------------------------------
bits to target conversion (src/block/utils.rs lines 17-38).

`bits_to_target` decodes the compact encoding; `target_to_bits` scales the
mantissa into `[0, 0x7fffff]` by repeated division by 256.  The Rust while
loop is embedded on fuel 64: the loop divides a `U256` (below `2 ^ 256`) by
256 until it is at most `0x7fffff`, which needs at most 30 iterations.
--------------------------------------------------------------------- -/

/-- `bits_to_target` of src/block/utils.rs.  The Rust error string carries the
offending exponent; only the error case matters here.  The multiplication is
exact `Nat` arithmetic: in Rust it is a `U256` multiplication that panics on
overflow, and every use below stays far below `2 ^ 256`. -/
def bits_to_target (bits : Nat) : Except String Nat :=
  let exponent := (bits >>> 24) &&& 0xff
  if exponent < 3 ∨ 33 < exponent then Except.error "exponent out of range"
  else
    let mantissa := bits &&& 0x7fffff
    Except.ok (mantissa * 256 ^ (exponent - 3))

/-- The `while limit < target` loop of `target_to_bits`, on fuel. -/
def targetToBitsGo : Nat → Nat → Nat → Nat × Nat
  | 0, target, exponent => (target, exponent)
  | f + 1, target, exponent =>
    if 0x7fffff < target then targetToBitsGo f (target / 256) (exponent + 1)
    else (target, exponent)

/-- `target_to_bits` of src/block/utils.rs.  The final expression
`(exponent << 24) | (target.0[0] as u32)` reads the low 64-bit limb of the
remaining target and truncates it to 32 bits before the bitwise or. -/
def target_to_bits (target : Nat) : Nat :=
  let p := targetToBitsGo 64 target 3
  (p.2 <<< 24) ||| (p.1 % 2 ^ 64 % 2 ^ 32)

/-- A target representable by the compact encoding: a mantissa of at most
`0x7fffff` scaled by a byte exponent of at most 30 (bits exponent 3 to 33),
fitting in 256 bits. -/
def RepresentableTarget (t : Nat) : Prop :=
  ∃ m e, m ≤ 0x7fffff ∧ e ≤ 30 ∧ t = m * 256 ^ e ∧ t < 2 ^ 256

/-- A target whose significant mantissa occupies at most 24 bits. -/
def Mantissa24 (t : Nat) : Prop := ∃ m e, m < 2 ^ 24 ∧ t = m * 256 ^ e

/-- Bitwise or of a shifted value and a small value is their sum. -/
theorem lor_disjoint_add (e m k : Nat) (hm : m < 2 ^ k) : (e <<< k) ||| m = 2 ^ k * e + m := by
  apply Nat.eq_of_testBit_eq
  intro i
  rw [Nat.testBit_lor, Nat.testBit_shiftLeft, Nat.testBit_mul_pow_two_add e hm i]
  by_cases h : i < k
  · simp [h, Nat.not_le.mpr h]
  · have hf : m.testBit i = false :=
      Nat.testBit_lt_two_pow (lt_of_lt_of_le hm (Nat.pow_le_pow_right (by norm_num)
        (Nat.not_lt.mp h)))
    simp [h, hf, Nat.le_of_not_lt h]

/-- On an input that is an exact mantissa times a power of 256, the
`target_to_bits` loop strips whole factors of 256 only, so no information is
lost: after `k ≤ e` exact divisions the mantissa fits the limit. -/
theorem targetToBitsGo_exact : ∀ e e0 f m, m ≤ 0x7fffff → e ≤ f →
    ∃ k, k ≤ e ∧ targetToBitsGo f (m * 256 ^ e) e0 = (m * 256 ^ (e - k), e0 + k) ∧
      m * 256 ^ (e - k) ≤ 0x7fffff := by
  intro e
  induction e with
  | zero =>
    intro e0 f m hm _
    refine ⟨0, le_refl 0, ?_, by simpa using hm⟩
    cases f with
    | zero => simp [targetToBitsGo]
    | succ f => simp [targetToBitsGo, Nat.not_lt.mpr hm]
  | succ e ih =>
    intro e0 f m hm hf
    by_cases hstop : m * 256 ^ (e + 1) ≤ 0x7fffff
    · refine ⟨0, Nat.zero_le _, ?_, by simpa using hstop⟩
      cases f with
      | zero => simp [targetToBitsGo]
      | succ f => simp [targetToBitsGo, Nat.not_lt.mpr hstop]
    · obtain ⟨f', rfl⟩ : ∃ f', f = f' + 1 := ⟨f - 1, by omega⟩
      have hdiv : m * 256 ^ (e + 1) / 256 = m * 256 ^ e := by
        rw [pow_succ, ← mul_assoc]
        exact Nat.mul_div_cancel _ (by norm_num)
      have step : targetToBitsGo (f' + 1) (m * 256 ^ (e + 1)) e0
          = targetToBitsGo f' (m * 256 ^ e) (e0 + 1) := by
        simp only [targetToBitsGo, if_pos (Nat.lt_of_not_le hstop), hdiv]
      obtain ⟨k, hk, heq, hle⟩ := ih (e0 + 1) f' m hm (by omega)
      refine ⟨k + 1, by omega, ?_, ?_⟩
      · rw [step, heq]
        have h1 : e + 1 - (k + 1) = e - k := by omega
        have h2 : e0 + 1 + k = e0 + (k + 1) := by omega
        rw [h1, h2]
      · have h1 : e + 1 - (k + 1) = e - k := by omega
        rw [h1]
        exact hle

/-- Claim C4: for every 256-bit target representable by the compact encoding,
`target_to_bits` round-trips through `bits_to_target` to a value at most the
original, with equality when the mantissa fits 24 bits (in fact the round
trip is exact for every representable target); concretely, bits `0x1a05db8b`
decode to the 32-byte target `0x05db8b` shifted by 23 bytes and encode back
to `0x1a05db8b`. -/
theorem bits_target_roundtrip :
    (∀ t : Nat, RepresentableTarget t →
      ∃ u, bits_to_target (target_to_bits t) = Except.ok u ∧ u ≤ t ∧
        (Mantissa24 t → u = t)) ∧
    bits_to_target 0x1a05db8b =
      Except.ok 0x5db8b0000000000000000000000000000000000000000000000 ∧
    target_to_bits 0x5db8b0000000000000000000000000000000000000000000000 = 0x1a05db8b := by
  refine ⟨?_, rfl, rfl⟩
  intro t ht
  obtain ⟨m, e, hm, he, rfl, ht256⟩ := ht
  obtain ⟨k, hk, heq, hle⟩ := targetToBitsGo_exact e 3 64 m hm (by omega)
  refine ⟨m * 256 ^ e, ?_, le_refl _, fun _ => rfl⟩
  have hm24 : m * 256 ^ (e - k) < 2 ^ 24 := by
    calc m * 256 ^ (e - k) ≤ 0x7fffff := hle
    _ < 2 ^ 24 := by norm_num
  have hbits : target_to_bits (m * 256 ^ e) = 2 ^ 24 * (3 + k) + m * 256 ^ (e - k) := by
    unfold target_to_bits
    rw [heq]
    have hmod : m * 256 ^ (e - k) % 2 ^ 64 % 2 ^ 32 = m * 256 ^ (e - k) := by
      rw [Nat.mod_eq_of_lt (lt_trans hm24 (by norm_num)),
          Nat.mod_eq_of_lt (lt_trans hm24 (by norm_num))]
    simp only [hmod]
    exact lor_disjoint_add (3 + k) (m * 256 ^ (e - k)) 24 hm24
  rw [hbits]
  unfold bits_to_target
  have hshift : (2 ^ 24 * (3 + k) + m * 256 ^ (e - k)) >>> 24 = 3 + k := by
    rw [Nat.shiftRight_eq_div_pow, Nat.mul_add_div (by norm_num), Nat.div_eq_of_lt hm24]
    omega
  have hexp : (2 ^ 24 * (3 + k) + m * 256 ^ (e - k)) >>> 24 &&& 0xff = 3 + k := by
    rw [hshift, show (0xff : Nat) = 2 ^ 8 - 1 from rfl, Nat.and_pow_two_sub_one_eq_mod]
    exact Nat.mod_eq_of_lt (by omega)
  have hman : (2 ^ 24 * (3 + k) + m * 256 ^ (e - k)) &&& 0x7fffff = m * 256 ^ (e - k) := by
    rw [show (0x7fffff : Nat) = 2 ^ 23 - 1 from rfl, Nat.and_pow_two_sub_one_eq_mod,
      show 2 ^ 24 * (3 + k) = 2 ^ 23 * (2 * (3 + k)) by ring, Nat.mul_add_mod]
    exact Nat.mod_eq_of_lt (by omega)
  simp only [hexp, hman]
  rw [if_neg (by omega)]
  have hpow : m * 256 ^ (e - k) * 256 ^ (3 + k - 3) = m * 256 ^ e := by
    rw [mul_assoc, ← pow_add]
    congr 2
    omega
  rw [hpow]

/-- Witness for claim C4: the round trip applied to the scenario target. -/
theorem bits_target_roundtrip_witness :
    ∃ u, bits_to_target
        (target_to_bits 0x5db8b0000000000000000000000000000000000000000000000) =
      Except.ok u ∧ u ≤ 0x5db8b0000000000000000000000000000000000000000000000 ∧
      (Mantissa24 0x5db8b0000000000000000000000000000000000000000000000 →
        u = 0x5db8b0000000000000000000000000000000000000000000000) :=
  bits_target_roundtrip.1 0x5db8b0000000000000000000000000000000000000000000000
    ⟨0x5db8b, 23, by norm_num, by norm_num, by norm_num, by norm_num⟩

/- ---------------------------------------------------------------------
Transactions (src/tx/transactions.rs, src/tx/accessory.rs).

Only the pieces the mempool and account claims consume are embedded:
the body fields, the size formula, and the `TxVerifiable` wrapper.  The
signature list never influences any claim below and is omitted; `TxMessage`
enters only through its byte length, so the message is kept as its bytes.
--------------------------------------------------------------------- -/

/-- A 21-byte address (one version byte and a 20-byte identifier). -/
def Address := List Nat
deriving DecidableEq

/-- `TxInput(prev_tx_hash, vout)`. -/
structure TxInput where
  prev : Nat
  vout : Nat
deriving DecidableEq

/-- `TxOutput(address, coin_id, amount)`. -/
structure TxOutput where
  addr : Address
  coin_id : Nat
  amount : Nat
deriving DecidableEq

/-- Transaction type discriminator. -/
inductive TxType where
  | Genesis
  | PoW
  | PoS
  | Transfer
  | Mint
deriving DecidableEq

/-- Transaction body (src/tx/transactions.rs).  `gas_price` is u64 and
`gas_amount` is i64 in Rust. -/
structure TxBody where
  version : Nat
  txtype : TxType
  time : Nat
  deadline : Nat
  inputs : List TxInput
  outputs : List TxOutput
  gas_price : Nat
  gas_amount : Int
  message : List Nat
deriving DecidableEq

/-- `TxBody::get_size`: 39 static bytes plus 33 per input and output plus the
message length. -/
def TxBody.get_size (body : TxBody) : Nat :=
  39 + body.inputs.length * 33 + body.outputs.length * 33 + body.message.length

/-- A verifiable transaction: cached hash, body and resolved input outputs
(the signature list plays no role in the embedded claims). -/
structure TxVerifiable where
  hash : Nat
  body : TxBody
  inputs_cache : List TxOutput
deriving DecidableEq

/- ---------------------------------------------------------------------
The mempool (src/chain/unconfirmed.rs).

The backing store is a gap-permitting vector `Vec<Option<Unconfirmed>>`:
deletions overwrite a slot with `None`.  Every scan in the file is written

    while let Some(x) = self.txs.streaming().next() { ... }

which constructs a FRESH `TxsIter` at every evaluation of the loop
condition, so each evaluation restarts at the front (or, for `.rev()`, the
back) of the vector.  The embedding keeps that semantics exactly: one
condition evaluation is `streamNextFresh` and the loops run on fuel, with
`spin` as the outcome of a loop that never meets its exit condition.

`TxsIter::advance` tests `self.vec.get(index).is_some()`, which is only an
in-bounds test (`Vec::get` wraps a present `None` slot in `Some`), and
`TxsIter::get` then unwraps the slot itself, so `get` panics on a `None`
hole; the `else if index < self.vec.len()` branch of `advance` labelled
"deleted element" is unreachable.  Both facts are mirrored below.
--------------------------------------------------------------------- -/

/-- Mempool metadata of one unconfirmed transaction.  `depend_addrs` is a
Bloom filter over the touched addresses in Rust (an external crate); it is
kept as the list of inserted addresses, and no claim below reads it. -/
structure Unconfirmed where
  hash : Nat
  depend_hashs : List Nat
  depend_addrs : List Address
  price : Nat
  time : Nat
  deadline : Nat
  size : Nat
deriving DecidableEq

/-- The gap-permitting backing vector `Vec<Option<Unconfirmed>>`. -/
abbrev TxsType := List (Option Unconfirmed)

/-- The live entries, in order: the `filter(|tx| tx.is_some())` view that
`position`, `remove`, `insert` and `len` all use. -/
def Txs.live (v : TxsType) : List Unconfirmed :=
  List.filterMap id v

/-- `Txs::exist`: whether some live entry carries the hash. -/
def Txs.exist (v : TxsType) (h : Nat) : Bool :=
  List.any v (fun tx => match tx with
    | some u => u.hash == h
    | none => false)

/-- `Txs::position`: index of the hash among the live entries. -/
def Txs.position (v : TxsType) (h : Nat) : Option Nat :=
  List.findIdx? (fun u => u.hash == h) (Txs.live v)

/-- `Txs::remove`: overwrite the index-th live slot with `None` and return
the entry; `none` is the out-of-bounds panic. -/
def Txs.removeGo : TxsType → Nat → Option (TxsType × Unconfirmed)
  | [], _ => none
  | none :: rest, i =>
    (Txs.removeGo rest i).map (fun p => (none :: p.1, p.2))
  | some u :: rest, 0 => some (none :: rest, u)
  | some u :: rest, i + 1 =>
    (Txs.removeGo rest i).map (fun p => (some u :: p.1, p.2))

/-- `Txs::push`: append at the back of the raw vector. -/
def Txs.push (v : TxsType) (e : Unconfirmed) : TxsType :=
  v ++ [some e]

/-- `Txs::len`: the number of live entries. -/
def Txs.len (v : TxsType) : Nat :=
  (Txs.live v).length

/-- Swap two raw slots (`Vec::swap`); indices are valid at every use. -/
def Txs.swapSlots (v : TxsType) (i j : Nat) : TxsType :=
  match v.get? i, v.get? j with
  | some a, some b => (v.set i b).set j a
  | _, _ => v

/-- `Txs::insert`: place an element before the index-th live entry, reusing a
`None` hole within one raw slot when possible.  `none` is the
`panic!("index is out of bounds")` case.

Note the source computes `raw_index` as `self.position(&item.hash)`, i.e. the
index of the target entry among the LIVE entries, and then uses it to address
the RAW vector (`self.0`); the embedding reproduces that faithfully. -/
def Txs.insert (v : TxsType) (index : Nat) (e : Unconfirmed) : Option TxsType :=
  match (Txs.live v).get? index with
  | none =>
    if 0 < index then none
    else some (v ++ [some e])
  | some item =>
    match Txs.position v item.hash with
    | none => none
    | some rawIndex =>
      if 0 < rawIndex ∧ v.get? (rawIndex - 1) = some none then
        some (v.set (rawIndex - 1) (some e))
      else if 1 < rawIndex ∧ v.get? (rawIndex - 2) = some none then
        some (Txs.swapSlots (v.set (rawIndex - 2) (some e)) (rawIndex - 2) (rawIndex - 1))
      else if rawIndex + 1 < v.length ∧ v.get? (rawIndex + 1) = some none then
        some (Txs.swapSlots (v.set (rawIndex + 1) (some e)) rawIndex (rawIndex + 1))
      else
        some (v.insertIdx rawIndex (some e))

/-- One evaluation of `self.txs.streaming().next()`: the fresh iterator
advances to raw index 0, whose in-bounds test passes whenever the vector is
non-empty, and `get` then unwraps slot 0 — panicking if it is a hole. -/
def streamNextFresh (v : TxsType) : RunRes (Option Unconfirmed) :=
  match v with
  | [] => RunRes.ok none
  | none :: _ => RunRes.panicked
  | some u :: _ => RunRes.ok (some u)

/-- One evaluation of `self.txs.streaming().rev().next()`: `advance_back`
starts at the last raw slot (or ends immediately on an empty vector), and
`get` unwraps that slot. -/
def streamNextBackFresh (v : TxsType) : RunRes (Option Unconfirmed) :=
  match v.getLast? with
  | none => RunRes.ok none
  | some none => RunRes.panicked
  | some (some u) => RunRes.ok (some u)

/-- `UnconfirmedBuilder::get_size`: the accumulation loop, on fuel.  The size
counter is u32 and wraps. -/
def getSizeLoop : Nat → TxsType → Nat → RunRes Nat
  | 0, _, _ => RunRes.spin
  | f + 1, v, size =>
    match streamNextFresh v with
    | RunRes.panicked => RunRes.panicked
    | RunRes.spin => RunRes.spin
    | RunRes.ok none => RunRes.ok size
    | RunRes.ok (some u) => getSizeLoop f v ((size + u.size) % 2 ^ 32)

/-- `UnconfirmedBuilder::get_size`. -/
def get_size (fuel : Nat) (v : TxsType) : RunRes Nat :=
  getSizeLoop fuel v 0

/-- The recursion of `remove_with_depend_myself` after its initial removal,
flattened to an explicit stack of hashes whose dependents are still being
collected.  Processing the top hash `h` evaluates the fresh-iterator scan:
an empty vector ends the level (`want_delete = None`), a hole at slot 0
panics, and otherwise only the FIRST live entry is ever inspected — if it
depends on `h` it is removed and its own hash pushed, and if it does not the
loop re-evaluates the same condition forever (fuel runs out). -/
def rwdStep : Nat → TxsType → List Unconfirmed → List Nat →
    RunRes (TxsType × List Unconfirmed)
  | 0, _, _, _ => RunRes.spin
  | _ + 1, v, deleted, [] => RunRes.ok (v, deleted)
  | f + 1, v, deleted, h :: stack =>
    match streamNextFresh v with
    | RunRes.panicked => RunRes.panicked
    | RunRes.spin => RunRes.spin
    | RunRes.ok none => rwdStep f v deleted stack
    | RunRes.ok (some tx) =>
      if tx.depend_hashs.contains h then
        -- recursive call `remove_with_depend_myself(&tx.hash, deleted)`
        match Txs.position v tx.hash with
        | none => rwdStep f v deleted (h :: stack)
        | some i =>
          match Txs.removeGo v i with
          | none => RunRes.panicked
          | some (v2, u) => rwdStep f v2 (deleted ++ [u]) (tx.hash :: h :: stack)
      else
        rwdStep f v deleted (h :: stack)

/-- `UnconfirmedBuilder::remove_with_depend_myself`: remove the hash if
present, then collect transitive dependents. -/
def remove_with_depend_myself (fuel : Nat) (v : TxsType) (h : Nat)
    (deleted : List Unconfirmed) : RunRes (TxsType × List Unconfirmed) :=
  match Txs.position v h with
  | none => RunRes.ok (v, deleted)
  | some i =>
    match Txs.removeGo v i with
    | none => RunRes.panicked
    | some (v2, u) => rwdStep fuel v2 (deleted ++ [u]) [h]

/-- `remove_with_depend_myself` folded over a list of hashes (the removal
loops of `remove_many` and of the disturbs branch of `push_unconfirmed`). -/
def rwdMany (fuel : Nat) : TxsType → List Nat → List Unconfirmed →
    RunRes (TxsType × List Unconfirmed)
  | v, [], deleted => RunRes.ok (v, deleted)
  | v, h :: rest, deleted =>
    match remove_with_depend_myself fuel v h deleted with
    | RunRes.panicked => RunRes.panicked
    | RunRes.spin => RunRes.spin
    | RunRes.ok (v2, deleted2) => rwdMany fuel v2 rest deleted2

/-- First loop of `push_unconfirmed`: scan for the highest dependency
position and reject an already inserted hash.  Each condition evaluation is a
fresh iterator, so only the first live entry is ever read; if it is not the
duplicate, the loop re-evaluates forever. -/
def pushDependLoop : Nat → TxsType → Unconfirmed → Option Nat →
    RunRes (Except String (Option Nat))
  | 0, _, _, _ => RunRes.spin
  | f + 1, v, u, dep =>
    match streamNextFresh v with
    | RunRes.panicked => RunRes.panicked
    | RunRes.spin => RunRes.spin
    | RunRes.ok none => RunRes.ok (Except.ok dep)
    | RunRes.ok (some tx) =>
      if u.depend_hashs.contains tx.hash then
        match Txs.position v tx.hash with
        | none => RunRes.panicked
        | some i =>
          if u.hash == tx.hash then RunRes.ok (Except.error "already inserted tx")
          else pushDependLoop f v u (some i)
      else
        if u.hash == tx.hash then RunRes.ok (Except.error "already inserted tx")
        else pushDependLoop f v u dep

/-- Second loop of `push_unconfirmed`: reverse scan for the lowest position
that requires the new transaction, collecting disturbs.  The body never
breaks, so on a non-empty vector each fresh reverse iterator reads the last
slot again and again. -/
def pushRequiredLoop : Nat → TxsType → Unconfirmed → Option Nat → Option Nat →
    List Nat → RunRes (Option Nat × List Nat)
  | 0, _, _, _, _, _ => RunRes.spin
  | f + 1, v, u, dep, req, disturbs =>
    match streamNextBackFresh v with
    | RunRes.panicked => RunRes.panicked
    | RunRes.spin => RunRes.spin
    | RunRes.ok none => RunRes.ok (req, disturbs)
    | RunRes.ok (some tx) =>
      if tx.depend_hashs.contains u.hash then
        match Txs.position v tx.hash with
        | none => RunRes.panicked
        | some i =>
          let disturbs2 :=
            match dep with
            | some d => if d ≥ i then disturbs ++ [tx.hash] else disturbs
            | none => disturbs
          pushRequiredLoop f v u dep (some i) disturbs2
      else
        pushRequiredLoop f v u dep req disturbs

/-- Third loop of `push_unconfirmed`: find the first live position satisfying
the absolute window `(dep, req]` and the (price, time) priority rule; this
loop breaks on a hit, so a fresh iterator either accepts the first live
entry, re-reads it forever, panics on a hole, or ends on an empty vector. -/
def pushBestLoop : Nat → TxsType → Unconfirmed → Option Nat → Option Nat →
    RunRes (Option Nat)
  | 0, _, _, _, _ => RunRes.spin
  | f + 1, v, u, dep, req =>
    match streamNextFresh v with
    | RunRes.panicked => RunRes.panicked
    | RunRes.spin => RunRes.spin
    | RunRes.ok none => RunRes.ok none
    | RunRes.ok (some tx) =>
      match Txs.position v tx.hash with
      | none => RunRes.panicked
      | some index =>
        if dep.isSome ∧ index ≤ dep.getD 0 then pushBestLoop f v u dep req
        else if req.isSome ∧ index > req.getD 0 then pushBestLoop f v u dep req
        else if u.price < tx.price then pushBestLoop f v u dep req
        else if u.price == tx.price ∧ u.time ≥ tx.time then pushBestLoop f v u dep req
        else RunRes.ok (some index)

/-- `push_unconfirmed` over an explicit queue of pending pushes.  The head of
the queue with `top = true` is the externally called push, whose duplicate
error is returned to the caller; every later element models the
`assert!(self.push_unconfirmed(..).is_ok())` re-pushes, whose errors abort
(`panicked`).  The disturbs branch removes the disturbing entries with their
dependents and queues the original in front of them; the returned insertion
index of the source is not modeled (callers in the claims use only the
success and the resulting vector). -/
def pushGo : Nat → TxsType → Bool → List Unconfirmed →
    RunRes (Except String TxsType)
  | 0, _, _, _ => RunRes.spin
  | _ + 1, v, _, [] => RunRes.ok (Except.ok v)
  | f + 1, v, top, u :: rest =>
    match pushDependLoop f v u none with
    | RunRes.panicked => RunRes.panicked
    | RunRes.spin => RunRes.spin
    | RunRes.ok (Except.error e) =>
      if top then RunRes.ok (Except.error e) else RunRes.panicked
    | RunRes.ok (Except.ok dep) =>
      match pushRequiredLoop f v u dep none [] with
      | RunRes.panicked => RunRes.panicked
      | RunRes.spin => RunRes.spin
      | RunRes.ok (req, disturbs) =>
        if disturbs.isEmpty then
          match pushBestLoop f v u dep req with
          | RunRes.panicked => RunRes.panicked
          | RunRes.spin => RunRes.spin
          | RunRes.ok best =>
            -- `best_index = required_index` when the loop found nothing
            match (if best.isNone then req else best) with
            | some b =>
              match Txs.insert v b u with
              | none => RunRes.panicked
              | some v2 => pushGo f v2 false rest
            | none => pushGo f (Txs.push v u) false rest
        else
          match rwdMany f v disturbs [] with
          | RunRes.panicked => RunRes.panicked
          | RunRes.spin => RunRes.spin
          | RunRes.ok (v2, deleted) => pushGo f v2 false (u :: (deleted ++ rest))

/-- `UnconfirmedBuilder::push_unconfirmed`. -/
def push_unconfirmed (fuel : Nat) (v : TxsType) (u : Unconfirmed) :
    RunRes (Except String TxsType) :=
  pushGo fuel v true [u]

/-- Ascending insertion into a sorted list (models `Vec::sort_unstable` on
the dependency hashes; ties cannot survive the following dedup). -/
def insertSorted (x : Nat) : List Nat → List Nat
  | [] => [x]
  | y :: ys => if x ≤ y then x :: y :: ys else y :: insertSorted x ys

/-- Sort a hash list ascending. -/
def sortHashs (l : List Nat) : List Nat :=
  l.foldr insertSorted []

/-- Remove consecutive duplicates (`Vec::dedup` after the sort). -/
def dedupConsec : List Nat → List Nat
  | [] => []
  | [x] => [x]
  | x :: y :: rest =>
    if x = y then dedupConsec (y :: rest) else x :: dedupConsec (y :: rest)

/-- The metadata record built by `push_new_tx`: hash, deduplicated input
dependencies, touched addresses (the Bloom filter content), price, time,
deadline and serialized size truncated to u32. -/
def mkUnconfirmed (tx : TxVerifiable) : Unconfirmed :=
  { hash := tx.hash
    depend_hashs := dedupConsec (sortHashs (tx.body.inputs.map TxInput.prev))
    depend_addrs := tx.inputs_cache.map TxOutput.addr ++ tx.body.outputs.map TxOutput.addr
    price := tx.body.gas_price
    time := tx.body.time
    deadline := tx.body.deadline
    size := tx.body.get_size % 2 ^ 32 }

/-- `UnconfirmedBuilder::push_new_tx`. -/
def push_new_tx (fuel : Nat) (v : TxsType) (tx : TxVerifiable) :
    RunRes (Except String TxsType) :=
  push_unconfirmed fuel v (mkUnconfirmed tx)

/-- `UnconfirmedBuilder::remove_many`: remove the roots with all transitive
dependents, drop the roots from the deleted list, and re-push the rest
(each re-push is assert-guarded in the source). -/
def remove_many (fuel : Nat) (v : TxsType) (hashs : List Nat) : RunRes TxsType :=
  match rwdMany fuel v hashs [] with
  | RunRes.panicked => RunRes.panicked
  | RunRes.spin => RunRes.spin
  | RunRes.ok (v2, deleted) =>
    match pushGo fuel v2 false (deleted.filter (fun tx => ¬ hashs.contains tx.hash)) with
    | RunRes.panicked => RunRes.panicked
    | RunRes.spin => RunRes.spin
    | RunRes.ok (Except.ok v3) => RunRes.ok v3
    | RunRes.ok (Except.error _) => RunRes.panicked

/-- `UnconfirmedBuilder::remove_expired_txs`: repeatedly search for an
expired entry (fresh iterator: only the first live entry is inspected; the
condition re-evaluates forever when it is not expired) and remove it with its
dependents; returns the final vector and the removed entries. -/
def removeExpiredLoop : Nat → TxsType → Nat → List Unconfirmed →
    RunRes (TxsType × List Unconfirmed)
  | 0, _, _, _ => RunRes.spin
  | f + 1, v, deadline, deleted =>
    match streamNextFresh v with
    | RunRes.panicked => RunRes.panicked
    | RunRes.spin => RunRes.spin
    | RunRes.ok none => RunRes.ok (v, deleted)
    | RunRes.ok (some tx) =>
      if tx.deadline < deadline then
        match remove_with_depend_myself f v tx.hash deleted with
        | RunRes.panicked => RunRes.panicked
        | RunRes.spin => RunRes.spin
        | RunRes.ok (v2, deleted2) => removeExpiredLoop f v2 deadline deleted2
      else
        removeExpiredLoop f v deadline deleted

/-- `UnconfirmedBuilder::remove_expired_txs`. -/
def remove_expired_txs (fuel : Nat) (v : TxsType) (deadline : Nat) :
    RunRes (TxsType × List Nat) :=
  match removeExpiredLoop fuel v deadline [] with
  | RunRes.panicked => RunRes.panicked
  | RunRes.spin => RunRes.spin
  | RunRes.ok (v2, deleted) => RunRes.ok (v2, deleted.map Unconfirmed.hash)

/-- `TxsIter::advance` (one pass of its inner loop, which runs exactly once:
the in-bounds test `self.vec.get(index).is_some()` succeeds for every raw
index below the length — including a `None` hole — and the labelled
"deleted element" continue branch requires `index < len` after that test
failed, which is impossible). -/
def TxsIter.advance (vec : TxsType) (index : Option Nat) : Option Nat :=
  let i := match index with
    | none => 0
    | some j => j + 1
  if (vec.get? i).isSome then some i else none

/-- `TxsIter::get`: unwraps the slot at the current index, panicking when the
slot is a `None` hole (`.as_ref().unwrap()`). -/
def TxsIter.get (vec : TxsType) (index : Option Nat) : RunRes (Option Unconfirmed) :=
  match index with
  | none => RunRes.ok none
  | some i =>
    match vec.get? i with
    | none => RunRes.panicked
    | some none => RunRes.panicked
    | some (some u) => RunRes.ok (some u)

/-- `StreamingIterator::next`: advance, then get. -/
def TxsIter.next (vec : TxsType) (index : Option Nat) :
    Option Nat × RunRes (Option Unconfirmed) :=
  let i := TxsIter.advance vec index
  (i, TxsIter.get vec i)

/-- A fresh `streaming().next()` is `TxsIter.next` from the initial state. -/
theorem streamNextFresh_eq_iter (v : TxsType) :
    streamNextFresh v = (TxsIter.next v none).2 := by
  cases v with
  | nil => rfl
  | cons hd tl => cases hd <;> rfl

/- Concrete mempool entries used by the divergence and panic theorems.
Separate records are used per claim so that no two claims share lemmas. -/

/-- A live entry with no dependencies (deadline 100, size 120). -/
def u101 : Unconfirmed :=
  { hash := 101, depend_hashs := [], depend_addrs := [], price := 5, time := 10,
    deadline := 100, size := 120 }

/-- A live entry with no dependencies. -/
def u201 : Unconfirmed :=
  { hash := 201, depend_hashs := [], depend_addrs := [], price := 5, time := 10,
    deadline := 100, size := 120 }

/-- An entry spending an output of `u201`. -/
def u202 : Unconfirmed :=
  { hash := 202, depend_hashs := [201], depend_addrs := [], price := 4, time := 11,
    deadline := 100, size := 120 }

/-- A live entry with no dependencies. -/
def u301 : Unconfirmed :=
  { hash := 301, depend_hashs := [], depend_addrs := [], price := 5, time := 10,
    deadline := 100, size := 120 }

/-- A second live entry. -/
def u302 : Unconfirmed :=
  { hash := 302, depend_hashs := [], depend_addrs := [], price := 4, time := 11,
    deadline := 100, size := 120 }

/-- The depend scan of `push_unconfirmed` never terminates over the singleton
vector `[some u201]` for a pushed entry that is not a duplicate: every
condition evaluation builds a fresh iterator and reads `u201` again. -/
theorem pushDependLoop_spin_u202 : ∀ f dep,
    pushDependLoop f [some u201] u202 dep = RunRes.spin := by
  intro f
  induction f with
  | zero => intro _; rfl
  | succ f ih => intro dep; exact ih (some 0)

/-- Claim C1 (code evaluation at the failing input): the operations that
build multi-transaction mempool states fail on any non-empty mempool —
pushing a dependent second transaction re-reads the first live entry forever
(`spin` for every fuel), and removing the only transaction panics, because
after the removal leaves a `None` hole the dependents scan unwraps that
hole.  The two-transaction states quantified by the dependency-order claim
are therefore unreachable in the code as written. -/
theorem mempool_topological_builders_fail :
    (∀ fuel, push_unconfirmed fuel [some u201] u202 = RunRes.spin) ∧
    remove_many 16 [some u201] [201] = RunRes.panicked := by
  constructor
  · intro fuel
    cases fuel with
    | zero => rfl
    | succ f => simp only [push_unconfirmed, pushGo, pushDependLoop_spin_u202 f none]
  · rfl

/-- Claim C2 (code evaluation at the failing input): `get_size` and
`remove_expired_txs` never terminate on a one-transaction mempool, because
`self.txs.streaming().next()` constructs a fresh iterator at every loop
condition evaluation and always yields the first live transaction again
(the entry has deadline 100, so the expiry scan with deadline 50 never finds
an expired entry to remove); on the empty mempool `get_size` returns 0. -/
theorem mempool_scans_diverge :
    (∀ fuel acc, getSizeLoop fuel [some u101] acc = RunRes.spin) ∧
    (∀ fuel, remove_expired_txs fuel [some u101] 50 = RunRes.spin) ∧
    get_size 10 [] = RunRes.ok 0 := by
  have hsize : ∀ fuel acc, getSizeLoop fuel [some u101] acc = RunRes.spin := by
    intro fuel
    induction fuel with
    | zero => intro _; rfl
    | succ f ih => intro acc; exact ih ((acc + u101.size) % 2 ^ 32)
  have hexp : ∀ fuel deleted,
      removeExpiredLoop fuel [some u101] 50 deleted = RunRes.spin := by
    intro fuel
    induction fuel with
    | zero => intro _; rfl
    | succ f ih => intro deleted; exact ih deleted
  refine ⟨hsize, ?_, rfl⟩
  intro fuel
  simp only [remove_expired_txs, hexp fuel []]

/- Concrete transactions for the spec scenario 4 (push A, then B spending an
output of A, then C with higher price): the code diverges already at B. -/

/-- A 21-byte address with version byte 0. -/
def addrA : Address := 0 :: List.replicate 20 1

/-- Transaction A: price 50, no mempool dependencies. -/
def txA : TxVerifiable :=
  { hash := 0xa1
    body := { version := 0, txtype := TxType.Transfer, time := 10, deadline := 1000,
              inputs := [⟨0x91, 0⟩], outputs := [⟨addrA, 0, 100⟩],
              gas_price := 50, gas_amount := 2, message := [] }
    inputs_cache := [⟨addrA, 0, 200⟩] }

/-- Transaction B: price 40, spends output 0 of A. -/
def txB : TxVerifiable :=
  { hash := 0xb2
    body := { version := 0, txtype := TxType.Transfer, time := 11, deadline := 1000,
              inputs := [⟨0xa1, 0⟩], outputs := [⟨addrA, 0, 60⟩],
              gas_price := 40, gas_amount := 2, message := [] }
    inputs_cache := [⟨addrA, 0, 100⟩] }

/-- The mempool after pushing A into the empty mempool. -/
def stateA : TxsType := [some (mkUnconfirmed txA)]

/-- The depend scan of `push_unconfirmed` never terminates for B over
`stateA`: the fresh iterator always re-reads the entry of A. -/
theorem pushDependLoop_spin_txB : ∀ f dep,
    pushDependLoop f stateA (mkUnconfirmed txB) dep = RunRes.spin := by
  intro f
  induction f with
  | zero => intro _; rfl
  | succ f ih => intro dep; exact ih (some 0)

/-- Claim C3 (code evaluation at the failing input): pushing A into the empty
mempool succeeds, but the second `push_new_tx` of the scenario — B, which
spends an output of A — never returns for any fuel: its first dependency
scan re-evaluates `self.txs.streaming().next()` forever.  The scenario can
therefore never reach C, let alone produce the order `[C, A, B]`. -/
theorem push_scenario_diverges_at_B :
    push_new_tx 16 [] txA = RunRes.ok (Except.ok stateA) ∧
    (∀ fuel, push_new_tx fuel stateA txB = RunRes.spin) := by
  constructor
  · rfl
  · intro fuel
    cases fuel with
    | zero => rfl
    | succ f =>
      simp only [push_new_tx, push_unconfirmed, pushGo, pushDependLoop_spin_txB f none]

/-- Claim C10 (code evaluation at the failing input): `Txs::remove` of the
first entry leaves the backing vector `[None, Some u302]`; on that vector the
iterator of the very next scan advances to raw index 0 (the in-bounds test
accepts the hole) and `get` unwraps the hole, panicking instead of skipping
to the live entry. -/
theorem txs_iter_panics_on_hole :
    Txs.removeGo [some u301, some u302] 0 = some ([none, some u302], u301) ∧
    TxsIter.advance ([none, some u302] : TxsType) none = some 0 ∧
    (TxsIter.next ([none, some u302] : TxsType) none).2 = RunRes.panicked :=
  ⟨rfl, rfl, rfl⟩

/- ---------------------------------------------------------------------
Account fee check (src/chain/account.rs, `AccountBuilder::update_by_tx`,
lines 389-453).

The `Balance` / `Balances` helpers live in src/balance.rs, which is not among
the provided sources; they are modelled from the spec here.
--------------------------------------------------------------------- -/

/-- Modelled from the spec: `Balance` of the missing src/balance.rs —
"(coin_id:u32, amount:i64) pairs" (spec section 3). -/
structure Balance where
  coin_id : Nat
  amount : Int
deriving DecidableEq

/-- Modelled from the spec: `Balances::add_balance` of the missing
src/balance.rs merges an amount into the entry of the same coin
("compacted (coin-unique, ...)"). -/
def addBalance : List Balance → Balance → List Balance
  | [], b => [b]
  | x :: rest, b =>
    if x.coin_id = b.coin_id then
      { coin_id := x.coin_id, amount := x.amount + b.amount } :: rest
    else
      x :: addBalance rest b

/-- Modelled from the spec: `Balances::sub_balance` subtracts an amount. -/
def subBalance (l : List Balance) (b : Balance) : List Balance :=
  addBalance l { coin_id := b.coin_id, amount := - b.amount }

/-- Modelled from the spec: `Balances::sum` totals the signed amounts. -/
def balancesSum (l : List Balance) : Int :=
  (l.map Balance.amount).sum

/-- Modelled from the spec: `Balances::compaction` drops zero entries. -/
def balancesCompaction (l : List Balance) : List Balance :=
  l.filter (fun b => b.amount != 0)

/-- The Rust `as i64` cast of a u64 amount. -/
def i64ofU64 (n : Nat) : Int :=
  if n < 2 ^ 63 then (n : Int) else (n : Int) - 2 ^ 64

/-- The fee computed by `update_by_tx`: add every input-cache amount, subtract
every output amount, compact. -/
def feeOfTx (tx : TxVerifiable) : List Balance :=
  balancesCompaction
    (tx.body.outputs.foldl
      (fun acc output => subBalance acc { coin_id := output.coin_id, amount := i64ofU64 output.amount })
      (tx.inputs_cache.foldl
        (fun acc output => addBalance acc { coin_id := output.coin_id, amount := i64ofU64 output.amount })
        []))

/-- `AccountBuilder::update_by_tx` up to its fee assertion: the fee is
computed from the input cache and the outputs, then
`assert_eq!(fee.sum(), body.gas_amount * body.gas_price as i64)` ABORTS the
process on mismatch (line 412) — no error value is returned and no rollback
runs.  The bookkeeping after the assertion (address-gap maintenance,
movement recording) mutates nothing before the assertion fires and is
elided as a plain success; the i64 product is kept as exact `Int` (in Rust
it can itself overflow-panic, which no claim exercises). -/
def update_by_tx (tx : TxVerifiable) : RunRes Unit :=
  let fee := feeOfTx tx
  if balancesSum fee = tx.body.gas_amount * i64ofU64 tx.body.gas_price then RunRes.ok ()
  else RunRes.panicked

/-- A 21-byte address for the fee scenario. -/
def addrF : Address := 0 :: List.replicate 20 2

/-- A transaction whose fee (inputs minus outputs = 50) differs from
`gas_amount * gas_price = 10`. -/
def txFee : TxVerifiable :=
  { hash := 0xc3
    body := { version := 0, txtype := TxType.Transfer, time := 10, deadline := 1000,
              inputs := [⟨0x95, 0⟩], outputs := [⟨addrF, 0, 50⟩],
              gas_price := 1, gas_amount := 10, message := [] }
    inputs_cache := [⟨addrF, 0, 100⟩] }

/-- Claim C6 counterexample: a fee mismatch does not produce a returned
error value — `update_by_tx` hits the `assert_eq!` and aborts the process. -/
theorem update_by_tx_fee_mismatch_no_error :
    balancesSum (feeOfTx txFee) = 50 ∧
    txFee.body.gas_amount * i64ofU64 txFee.body.gas_price = 10 ∧
    update_by_tx txFee = RunRes.panicked := by
  refine ⟨by decide, by decide, by decide⟩

/-- Claim C6 amended: every transaction whose fee (sum of input amounts minus
sum of output amounts) differs from `gas_amount * gas_price` makes
`update_by_tx` fail its assertion and abort the process; no Consistency
error value is produced. -/
theorem update_by_tx_fee_mismatch_aborts (tx : TxVerifiable)
    (h : balancesSum (feeOfTx tx) ≠ tx.body.gas_amount * i64ofU64 tx.body.gas_price) :
    update_by_tx tx = RunRes.panicked := by
  unfold update_by_tx
  rw [if_neg h]

/-- Witness for the amended claim C6 at the concrete mismatching transaction. -/
theorem update_by_tx_fee_mismatch_aborts_witness :
    update_by_tx txFee = RunRes.panicked :=
  update_by_tx_fee_mismatch_aborts txFee (by decide)

/- ---------------------------------------------------------------------
Difficulty (src/block/difficulty.rs).
--------------------------------------------------------------------- -/

/-- u32 wrapping subtraction: release-profile semantics of
`timestamps[i + 1] - timestamps[i]`; a debug build panics on the same
underflow ("attempt to subtract with overflow"). -/
def wrapSub32 (a b : Nat) : Nat :=
  (b % 2 ^ 32 + 2 ^ 32 - a % 2 ^ 32) % 2 ^ 32

/-- Per-step solve time as computed at line 137:
`max(0, timestamps[i + 1] - timestamps[i])` on u32 operands — the
subtraction wraps and the `max` with 0 never clamps an unsigned value. -/
def solveTime (tsPrev tsNext : Nat) : Nat :=
  max 0 (wrapSub32 tsPrev tsNext)

/-- The per-step solve time as the spec words it (comparison definition
following the spec): the signed difference clamped at zero. -/
def solveTimeSpec (tsPrev tsNext : Nat) : Int :=
  max 0 ((tsNext : Int) - (tsPrev : Int))

/-- The weighted solve-time loop of `calc_next_bits` (lines 135-141): `j`
counts from 1 and `t += solve_time * j` is u32 arithmetic, wrapping. -/
def calcTGo : List Nat → Nat → Nat → Nat
  | t0 :: t1 :: rest, j, acc =>
    calcTGo (t1 :: rest) (j + 1) ((acc + solveTime t0 t1 * (j + 1) % 2 ^ 32) % 2 ^ 32)
  | _, _, acc => acc

/-- The weighted solve-time sum `t` over the collected timestamps. -/
def calcT (timestamps : List Nat) : Nat :=
  calcTGo timestamps 0 0

/-- Lines 132-152 of `calc_next_bits`, once the header walk has collected the
`N + 1` same-flavor timestamps and targets: the weighted solve-time sum, the
target sum over `targets[i + 1]`, the lower clamp `t >= N * K / 3`, and the
final `t * sum_target / K / N / N` (the wide arithmetic is U512 in Rust and
stays exact here). -/
def calcNextBitsCore (timestamps targets : List Nat) (N K : Nat) : Nat :=
  let t := calcT timestamps
  let sumT := (targets.drop 1).sum
  let t2 := if t < N * K / 3 then N * K / 3 else t
  t2 * sumT / K / N / N

/-- Claim C7 (code evaluation at the failing input): a consecutive timestamp
pair that decreases (100 then 50) does not contribute zero to the weighted
sum — the u32 subtraction wraps to 4294967246 (and a debug build panics),
which then flows unclamped into the collected sum and the new target. -/
theorem solve_time_wraps_not_clamps :
    solveTime 100 50 = 4294967246 ∧
    solveTimeSpec 100 50 = 0 ∧
    calcT [100, 50] = 4294967246 ∧
    calcNextBitsCore [100, 50] [2, 2] 1 6 = 1431655748 := by
  refine ⟨by decide, by decide, by decide, by decide⟩

/- calc_next_bias (src/block/difficulty.rs lines 164-240). -/

/-- Block flavor byte. -/
inductive BlockFlag where
  | Genesis
  | CoinPos
  | CapPos
  | FlkPos
  | YesPow
  | X11Pow
  | X16sPow
deriving DecidableEq

/-- The 80-byte block header fields. -/
structure BlockHeader where
  version : Nat
  previous_hash : Nat
  merkleroot : Nat
  time : Nat
  bits : Nat
  nonce : Nat
deriving DecidableEq

/-- Header with meta info, as cached by `DifficultyBuilder`. -/
structure MetaHeader where
  height : Nat
  flag : BlockFlag
  work : Nat
  header : BlockHeader
deriving DecidableEq

/-- The all-ones previous hash marking the genesis predecessor. -/
def GENESIS_PREVIOUS_HASH : Nat := 2 ^ 256 - 1

/-- The `for _ in 0..MAX_SEARCH_BLOCKS` ancestor walk of `calc_next_bias`.
`tables` abstracts `get_header_ref` (the LRU cache only avoids repeated
Tables reads, so the walk is a pure lookup).  The `others_best` map records
the newest target of every flavor NOT YET SEEN — including the requested
flavor itself, because the insertion happens before any flavor comparison.
Outcomes: `.error` propagates a `bits_to_target` failure, `.ok none` is an
early `return Ok(1.0)`, and `.ok (some (target_sum, target_cnt,
others_best))` reaches the final bias computation. -/
def biasWalk (tables : Nat → Option MetaHeader) (flag : BlockFlag) (paramsLen N : Nat) :
    Nat → Nat → Nat → Nat → List (BlockFlag × Nat) →
    Except String (Option (Nat × Nat × List (BlockFlag × Nat)))
  | 0, _, targetSum, targetCnt, othersBest =>
    Except.ok (some (targetSum, targetCnt, othersBest))
  | fuel + 1, targetHash, targetSum, targetCnt, othersBest =>
    match tables targetHash with
    | none => Except.ok none
    | some meta =>
      let ins : Except String (List (BlockFlag × Nat)) :=
        if othersBest.any (fun p => p.1 == meta.flag) then Except.ok othersBest
        else
          match bits_to_target meta.header.bits with
          | Except.error e => Except.error e
          | Except.ok tgt => Except.ok (othersBest ++ [(meta.flag, tgt)])
      match ins with
      | Except.error e => Except.error e
      | Except.ok othersBest2 =>
        let nextHash := meta.header.previous_hash
        if nextHash = GENESIS_PREVIOUS_HASH then Except.ok none
        else if meta.flag = flag ∧ targetCnt < N then
          match bits_to_target meta.header.bits with
          | Except.error e => Except.error e
          | Except.ok tgt =>
            biasWalk tables flag paramsLen N fuel nextHash
              (targetSum + tgt * (N - targetCnt)) (targetCnt + 1) othersBest2
        else if paramsLen ≤ othersBest2.length + 1 then
          Except.ok (some (targetSum, targetCnt, othersBest2))
        else
          biasWalk tables flag paramsLen N fuel nextHash targetSum targetCnt othersBest2

/-- Result of `calc_next_bias` before the f32 conversion: the literal 1.0
returns, or the u64 integer that the code divides by `4294967296f32`. -/
inductive BiasOut where
  | one
  | val (int : Nat)
deriving DecidableEq

/-- The `MAX` constant of difficulty.rs: big-endian bytes
`[255, 255, 0, ..., 0]`. -/
def MAXBASE : Nat := 0xffff * 256 ^ 30

/-- `U512::as_u64` of the bigint crate: the CHECKED conversion, which panics
in every build profile when the value does not fit in 64 bits (`low_u64` is
the truncating variant, and difficulty.rs does not use it). -/
def asU64 (n : Nat) : RunRes Nat :=
  if n < 2 ^ 64 then RunRes.ok n else RunRes.panicked

/-- `DifficultyBuilder::calc_next_bias` (lines 164-240): genesis and first
block return 1.0; otherwise the ancestor walk feeds the quotient
`average * target_cnt / target_sum * 0x100000000`, converted by the checked
`as_u64` — so a quotient of 64 bits or more aborts the process. -/
def calc_next_bias (tables : Nat → Option MetaHeader) (previous_hash : Nat)
    (flag : BlockFlag) (paramsLen : Nat) : RunRes (Except String BiasOut) :=
  let N := 30
  if flag = BlockFlag.Genesis then RunRes.ok (Except.ok BiasOut.one)
  else if previous_hash = GENESIS_PREVIOUS_HASH then RunRes.ok (Except.ok BiasOut.one)
  else
    match biasWalk tables flag paramsLen N 1000 previous_hash 0 0 [] with
    | Except.error e => RunRes.ok (Except.error e)
    | Except.ok none => RunRes.ok (Except.ok BiasOut.one)
    | Except.ok (some (targetSum, targetCnt, othersBest)) =>
      if targetCnt = 0 then RunRes.ok (Except.ok BiasOut.one)
      else if othersBest.length = 0 then
        match asU64 (MAXBASE * targetCnt / targetSum) with
        | RunRes.ok n => RunRes.ok (Except.ok (BiasOut.val n))
        | _ => RunRes.panicked
      else
        let avg := (othersBest.map Prod.snd).sum / othersBest.length
        match asU64 (avg * targetCnt / targetSum * 0x100000000) with
        | RunRes.ok n => RunRes.ok (Except.ok (BiasOut.val n))
        | _ => RunRes.panicked

/-- The average the spec describes (comparison definition following the spec
words): over the flavors other than the target only. -/
def othersOnlyAverage (othersBest : List (BlockFlag × Nat)) (flag : BlockFlag) : Nat :=
  let others := othersBest.filter (fun p => ¬ (p.1 == flag))
  (others.map Prod.snd).sum / others.length

/-- A two-ancestor chain: the newest ancestor (hash 1003) carries the
requested flavor `YesPow` with target 1, its parent (hash 1002) carries
`CoinPos` with target `0x7f9` (small enough that the final quotient fits in
64 bits and the checked `as_u64` conversion succeeds). -/
def tables8 : Nat → Option MetaHeader := fun h =>
  if h = 1003 then
    some { height := 3, flag := BlockFlag.YesPow, work := 0,
           header := { version := 0, previous_hash := 1002, merkleroot := 0,
                       time := 30, bits := 0x03000001, nonce := 0 } }
  else if h = 1002 then
    some { height := 2, flag := BlockFlag.CoinPos, work := 0,
           header := { version := 0, previous_hash := 1001, merkleroot := 0,
                       time := 20, bits := 0x030007f9, nonce := 0 } }
  else none

/-- The same chain with a large `CoinPos` target `0x7fffff * 256 ^ 23`: the
bias quotient is then about `2 ^ 233` and the checked `as_u64` aborts. -/
def tables8big : Nat → Option MetaHeader := fun h =>
  if h = 1003 then
    some { height := 3, flag := BlockFlag.YesPow, work := 0,
           header := { version := 0, previous_hash := 1002, merkleroot := 0,
                       time := 30, bits := 0x03000001, nonce := 0 } }
  else if h = 1002 then
    some { height := 2, flag := BlockFlag.CoinPos, work := 0,
           header := { version := 0, previous_hash := 1001, merkleroot := 0,
                       time := 20, bits := 0x1a7fffff, nonce := 0 } }
  else none

/-- Claim C8 (code evaluation at the failing input): walking from hash 1003
with requested flavor `YesPow` records the requested flavor itself in
`others_best` (it is the first flavor seen), so the bias average is taken
over both flavors — `(1 + 0x7f9) / 2 = 1021` — and not exclusively over the
flavors distinct from the target (`0x7f9` alone); the final quotient
`1021 / 30 * 2 ^ 32` flows through the checked `as_u64` into the returned
bias, and on the variant chain whose quotient exceeds 64 bits the same
conversion aborts the process instead. -/
theorem bias_average_includes_target_flavor :
    biasWalk tables8 BlockFlag.YesPow 2 30 1000 1003 0 0 [] =
      Except.ok (some (30, 1,
        [(BlockFlag.YesPow, 1), (BlockFlag.CoinPos, 0x7f9)])) ∧
    ([(BlockFlag.YesPow, 1), (BlockFlag.CoinPos, 0x7f9)].map Prod.snd).sum / 2 ≠
      othersOnlyAverage [(BlockFlag.YesPow, 1), (BlockFlag.CoinPos, 0x7f9)]
        BlockFlag.YesPow ∧
    calc_next_bias tables8 1003 BlockFlag.YesPow 2 =
      RunRes.ok (Except.ok (BiasOut.val 0x2200000000)) ∧
    calc_next_bias tables8big 1003 BlockFlag.YesPow 2 = RunRes.panicked := by
  refine ⟨rfl, by decide, rfl, rfl⟩

/- ---------------------------------------------------------------------
PoS worker unspent collection (src/block/generate.rs,
`PosWorker::update_by_new_block`, lines 306-369).

`chain.get_account_unspent_iter()` is abstracted as the given entry list and
`chain.get_tx_height` as `heightOf` (`none` is an `Err`, `some none` is
`Ok(None)` — an unconfirmed producing transaction — and `some (some h)` is
`Ok(Some(h))`).
--------------------------------------------------------------------- -/

/-- The PoS input maturity depth. -/
def MATURE_HEIGHT : Nat := 20

/-- The staking coinbase body built for one retained unspent output: the
single input, and one output whose amount is raised by the block reward
(u64 addition). -/
def mkStakeBody (output : TxOutput) (input : TxInput) (blockReward : Nat) : TxBody :=
  { version := 0, txtype := TxType.PoS, time := 0, deadline := 0,
    inputs := [input],
    outputs := [{ addr := output.addr, coin_id := output.coin_id,
                  amount := (output.amount + blockReward) % 2 ^ 64 }],
    gas_price := 0, gas_amount := 0, message := [] }

/-- The collection loop of `update_by_new_block`: skip any entry with a
non-zero coin id, a non-zero address version byte, an amount below
`1_0000_0000`, a missing or unconfirmed producing height, or a producing
height failing `new_block.height + 1 > height + MATURE_HEIGHT`; push the
rest.  The limit counter starts at 5000 and is decremented by `checked_sub`
AFTER each push, so the loop breaks only after a 5001-th push. -/
def posCollect (heightOf : Nat → Option (Option Nat)) (newHeight blockReward : Nat) :
    List (TxInput × TxOutput) → Nat → List (TxBody × Nat)
  | [], _ => []
  | (input, output) :: rest, limit =>
    if output.coin_id ≠ 0 then posCollect heightOf newHeight blockReward rest limit
    else if output.addr.getD 0 0 ≠ 0 then posCollect heightOf newHeight blockReward rest limit
    else if output.amount < 100000000 then posCollect heightOf newHeight blockReward rest limit
    else
      match heightOf input.prev with
      | some (some h) =>
        if newHeight + 1 ≤ h + MATURE_HEIGHT then
          posCollect heightOf newHeight blockReward rest limit
        else
          (mkStakeBody output input blockReward, output.amount) ::
            (match limit with
             | l + 1 => posCollect heightOf newHeight blockReward rest l
             | 0 => [])
      | _ => posCollect heightOf newHeight blockReward rest limit

/-- `PosWorker::update_by_new_block`: the retained staking candidate list. -/
def update_by_new_block_unspent (heightOf : Nat → Option (Option Nat))
    (newHeight blockReward : Nat) (entries : List (TxInput × TxOutput)) :
    List (TxBody × Nat) :=
  posCollect heightOf newHeight blockReward entries 5000

/-- The retention test the code applies to one entry, written with the same
condition chain as the loop. -/
def posQualify (heightOf : Nat → Option (Option Nat)) (newHeight : Nat)
    (e : TxInput × TxOutput) : Bool :=
  if e.2.coin_id ≠ 0 then false
  else if e.2.addr.getD 0 0 ≠ 0 then false
  else if e.2.amount < 100000000 then false
  else
    match heightOf e.1.prev with
    | some (some h) => if newHeight + 1 ≤ h + MATURE_HEIGHT then false else true
    | _ => false

/-- The maturity bound as the claim words it (comparison definition following
the spec): producing height at most `newHeight + 1 - MATURE_HEIGHT`. -/
def specMatureQualify (heightOf : Nat → Option (Option Nat)) (newHeight : Nat)
    (e : TxInput × TxOutput) : Bool :=
  if e.2.coin_id ≠ 0 then false
  else if e.2.addr.getD 0 0 ≠ 0 then false
  else if e.2.amount < 100000000 then false
  else
    match heightOf e.1.prev with
    | some (some h) => if h ≤ newHeight + 1 - MATURE_HEIGHT then true else false
    | _ => false

/-- A qualifying unspent output whose producing transaction sits exactly at
height `100 + 1 - 20 = 81`. -/
def entries9 : List (TxInput × TxOutput) :=
  [(⟨0xaa, 0⟩, ⟨0 :: List.replicate 20 3, 0, 100000000⟩)]

/-- The producing height oracle for `entries9`. -/
def heightOf9 : Nat → Option (Option Nat) := fun h =>
  if h = 0xaa then some (some 81) else none

/-- Claim C9 counterexample: at chain height 100 an output produced at height
exactly `100 + 1 - 20 = 81` satisfies the claim filter but is NOT retained —
the code keeps an output only when `new_block.height + 1 > height +
MATURE_HEIGHT`, i.e. height at most 80. -/
theorem pos_mature_boundary_skipped :
    update_by_new_block_unspent heightOf9 100 50 entries9 = [] ∧
    entries9.filter (specMatureQualify heightOf9 100) = entries9 := by
  refine ⟨rfl, rfl⟩

/-- Claim C9 amended: the retained staking candidates are exactly the account
unspent outputs with coin id 0, address version byte 0, amount at least
`1_0000_0000`, and a confirmed producing height `h` with
`h + MATURE_HEIGHT < new_height + 1` (equivalently `h ≤ new_height - 20`),
truncated to the first `limit + 1` matches (5001 for the start value 5000),
each carrying its staking coinbase body. -/
theorem pos_collect_is_filter : ∀ (heightOf : Nat → Option (Option Nat))
    (newHeight blockReward : Nat) (entries : List (TxInput × TxOutput)) (limit : Nat),
    posCollect heightOf newHeight blockReward entries limit =
      ((entries.filter (posQualify heightOf newHeight)).take (limit + 1)).map
        (fun e => (mkStakeBody e.2 e.1 blockReward, e.2.amount)) := by
  intro heightOf newHeight blockReward entries
  induction entries with
  | nil => intro limit; rfl
  | cons e rest ih =>
    intro limit
    obtain ⟨input, output⟩ := e
    rw [List.filter_cons]
    by_cases h1 : output.coin_id ≠ 0
    · have hq : posQualify heightOf newHeight (input, output) = false := by
        simp only [posQualify, if_pos h1]
      simp only [posCollect, if_pos h1, hq, Bool.false_eq_true, if_false, ih limit]
    · by_cases h2 : output.addr.getD 0 0 ≠ 0
      · have hq : posQualify heightOf newHeight (input, output) = false := by
          simp only [posQualify, if_neg h1, if_pos h2]
        simp only [posCollect, if_neg h1, if_pos h2, hq, Bool.false_eq_true, if_false, ih limit]
      · by_cases h3 : output.amount < 100000000
        · have hq : posQualify heightOf newHeight (input, output) = false := by
            simp only [posQualify, if_neg h1, if_neg h2, if_pos h3]
          simp only [posCollect, if_neg h1, if_neg h2, if_pos h3, hq, Bool.false_eq_true,
            if_false, ih limit]
        · match hh : heightOf input.prev with
          | some (some ht) =>
            by_cases h4 : newHeight + 1 ≤ ht + MATURE_HEIGHT
            · have hq : posQualify heightOf newHeight (input, output) = false := by
                simp only [posQualify, if_neg h1, if_neg h2, if_neg h3, hh, if_pos h4]
              simp only [posCollect, if_neg h1, if_neg h2, if_neg h3, hh, if_pos h4, hq,
                Bool.false_eq_true, if_false, ih limit]
            · have hq : posQualify heightOf newHeight (input, output) = true := by
                simp only [posQualify, if_neg h1, if_neg h2, if_neg h3, hh, if_neg h4]
              cases limit with
              | zero =>
                simp only [posCollect, if_neg h1, if_neg h2, if_neg h3, hh, if_neg h4, hq,
                  if_true, List.take_succ_cons, List.take_zero, List.map_cons, List.map_nil]
              | succ l =>
                simp only [posCollect, if_neg h1, if_neg h2, if_neg h3, hh, if_neg h4, hq,
                  if_true, List.take_succ_cons, List.map_cons, ih l]
          | some none =>
            have hq : posQualify heightOf newHeight (input, output) = false := by
              simp only [posQualify, if_neg h1, if_neg h2, if_neg h3, hh]
            simp only [posCollect, if_neg h1, if_neg h2, if_neg h3, hh, hq,
              Bool.false_eq_true, if_false, ih limit]
          | none =>
            have hq : posQualify heightOf newHeight (input, output) = false := by
              simp only [posQualify, if_neg h1, if_neg h2, if_neg h3, hh]
            simp only [posCollect, if_neg h1, if_neg h2, if_neg h3, hh, hq,
              Bool.false_eq_true, if_false, ih limit]

end Bc4py
